import Mathlib

/-!
Shallow embedding of `iplib3/address.py` (validators, the text/integer
codec for IPv4 and IPv6, and the address value objects), together with
proofs settling the frozen claims about the library.

Python strings are modelled as `List Char`; Python exceptions
(`ValueError`, `TypeError`) as an `Except Err` layer.  Leading
underscores of the Python helper names are dropped (`_ipv4_validator`
becomes `ipv4_validator`, and so on) because Lean reserves some
underscore-led names.
-/

set_option maxRecDepth 4000

/-- Python-style values appearing at the dynamically typed entry points of
the library: a string, an integer, `None`, or a value of any other type. -/
inductive PyVal where
  | str (s : List Char) : PyVal
  | int (n : Int) : PyVal
  | none : PyVal
  | other : PyVal
deriving DecidableEq

/-- Python exception kinds raised by this module: `ValueError` and
`TypeError` (exception messages are not modelled). -/
inductive Err where
  | valueError : Err
  | typeError : Err
deriving DecidableEq

/-- Converts a Lean string literal to the character-list representation used
for Python strings throughout this development. -/
def pstr (s : String) : List Char := s.toList

/-- Prepends a character to the first piece of a split result. -/
def consHead (c : Char) : List (List Char) → List (List Char)
  | [] => [[c]]
  | h :: t => (c :: h) :: t

/-- Models Python `str.split(sep)` for a single-character separator `sep`:
splits at every occurrence, keeping empty pieces. -/
def pySplitChar (sep : Char) : List Char → List (List Char)
  | [] => [[]]
  | c :: rest =>
    if c = sep then [] :: pySplitChar sep rest
    else consHead c (pySplitChar sep rest)

/-- Models Python `str.split(sep)` for a two-character separator `a ++ b`,
matching non-overlapping occurrences left to right. -/
def pySplit2 (a b : Char) : List Char → List (List Char)
  | [] => [[]]
  | [c] => [[c]]
  | c1 :: c2 :: rest =>
    if c1 = a ∧ c2 = b then [] :: pySplit2 a b rest
    else consHead c1 (pySplit2 a b (c2 :: rest))

/-- Models Python `sep.join(pieces)`. -/
def pyJoin (sep : List Char) : List (List Char) → List Char
  | [] => []
  | [x] => x
  | x :: y :: t => x ++ sep ++ pyJoin sep (y :: t)

/-- Value of a character as a digit, accepting `0`-`9`, `a`-`f` and
`A`-`F`: the digit alphabet Python `int(s, base)` admits for the bases
(10 and 16) used in the source. -/
def digitVal (c : Char) : Option Nat :=
  if '0' ≤ c ∧ c ≤ '9' then some (c.toNat - '0'.toNat)
  else if 'a' ≤ c ∧ c ≤ 'f' then some (c.toNat - 'a'.toNat + 10)
  else if 'A' ≤ c ∧ c ≤ 'F' then some (c.toNat - 'A'.toNat + 10)
  else none

/-- Accumulating left-to-right digit parser in base `b`. -/
def goDigits (b : Nat) (acc : Nat) : List Char → Option Nat
  | [] => some acc
  | c :: cs =>
    match digitVal c with
    | some v => if v < b then goDigits b (acc * b + v) cs else none
    | none => none

/-- Parses a nonempty unsigned digit string in base `b`. -/
def parseNat (b : Nat) (s : List Char) : Option Nat :=
  if s = [] then none else goDigits b 0 s

/-- Models Python `int(s, b)` for `b` = 10 or 16 on the string forms this
library manipulates: an optional sign followed by a nonempty digit string.
(Python additionally tolerates surrounding whitespace, interior
underscores and a `0x` prefix for base 16; none of those forms are
produced or consumed by the paths verified here.) -/
def pyIntB (b : Nat) (s : List Char) : Option Int :=
  match s with
  | [] => none
  | c :: rest =>
    if c = '-' then (parseNat b rest).map (fun n => -(n : Int))
    else if c = '+' then (parseNat b rest).map (fun n => (n : Int))
    else (parseNat b (c :: rest)).map (fun n => (n : Int))

/-- Models a Python `int(...)` call as an expression raising `ValueError`
on failure. -/
def pyIntExc (b : Nat) (s : List Char) : Except Err Int :=
  match pyIntB b s with
  | some n => .ok n
  | none => .error .valueError

/-- Models a `try ... except ValueError` block around a computation: a
`ValueError` is caught (yielding `none`), other exceptions propagate. -/
def attempt {α : Type} (x : Except Err α) : Except Err (Option α) :=
  match x with
  | .ok a => .ok (some a)
  | .error .valueError => .ok none
  | .error e => .error e

/-- Models `list(map(f, xs))` where `f` may raise. -/
def mapExcept {α β : Type} (f : α → Except Err β) : List α → Except Err (List β)
  | [] => .ok []
  | x :: xs =>
    match f x with
    | .error e => .error e
    | .ok y => (mapExcept f xs).map (fun ys => y :: ys)

/-- Character for digit `d`, uppercase letters beyond `9`: the digits
produced by Python `str(n)` and by `hex(n).split('x')[1].upper()`. -/
def toDigitChar (d : Nat) : Char :=
  if d < 10 then Char.ofNat ('0'.toNat + d) else Char.ofNat ('A'.toNat + (d - 10))

/-- Fuelled base-`b` digit renderer; `digitsBE` instantiates the fuel. -/
def digitsF (b : Nat) : Nat → Nat → List Char
  | 0, _ => []
  | f + 1, n =>
    if n < b then [toDigitChar n]
    else digitsF b f (n / b) ++ [toDigitChar (n % b)]

/-- Big-endian digit string of `n` in base `b`, with no leading zeros and
`"0"` for zero: models Python `str(n)` (base 10) and
`hex(n).split('x')[1].upper()` (base 16) for nonnegative `n`. -/
def digitsBE (b n : Nat) : List Char := digitsF b (n + 1) n

/-- Models Python `str.zfill(w)` on an unsigned digit string. -/
def pyZfill (s : List Char) (w : Nat) : List Char :=
  List.replicate (w - s.length) '0' ++ s

/-- Modelled from the spec: the port bounds from the missing
`iplib3.constants.port` module (§6: ports `0..=65535`). -/
def PORT_NUMBER_MIN_VALUE : Nat := 0

/-- Modelled from the spec: upper port bound (§6). -/
def PORT_NUMBER_MAX_VALUE : Nat := 65535

/-- Modelled from the spec: IPv4 segment count from the missing
`iplib3.constants.ipv4` module (§3: 4 dotted decimal segments). -/
def IPV4_MAX_SEGMENT_COUNT : Nat := 4

/-- Modelled from the spec: minimum IPv4 segment value (§3). -/
def IPV4_MIN_SEGMENT_VALUE : Nat := 0

/-- Modelled from the spec: maximum IPv4 segment value (§3: `[0,255]`). -/
def IPV4_MAX_SEGMENT_VALUE : Nat := 255

/-- Modelled from the spec: minimum IPv4 integer value (§6). -/
def IPV4_MIN_VALUE : Nat := 0

/-- Modelled from the spec: maximum IPv4 integer value (§6: `2^32-1`). -/
def IPV4_MAX_VALUE : Nat := 4294967295

/-- Modelled from the spec: bits per rendered hex digit, from the missing
`iplib3.constants.ipv6` module (§4.2: hextets zero-padded to
`16 / 4 = 4` hex digits). -/
def IPV6_NUMBER_BIT_COUNT : Nat := 4

/-- Modelled from the spec: bits per IPv6 hextet (§3: 16-bit hextets; the
source also passes this constant as the base of `int(segment, 16)`). -/
def IPV6_SEGMENT_BIT_COUNT : Nat := 16

/-- Modelled from the spec: minimum IPv6 segment count, the lower bound of
the slicing conditions in `_num_to_ipv6` (§4.2 edge policy: the prefix
slice is kept exactly when the elided run starts after index 0). -/
def IPV6_MIN_SEGMENT_COUNT : Nat := 0

/-- Modelled from the spec: IPv6 hextet count (§3: 8 hextets). -/
def IPV6_MAX_SEGMENT_COUNT : Nat := 8

/-- Modelled from the spec: minimum IPv6 hextet value (§3). -/
def IPV6_MIN_SEGMENT_VALUE : Nat := 0

/-- Modelled from the spec: maximum IPv6 hextet value (§3: `0xFFFF`). -/
def IPV6_MAX_SEGMENT_VALUE : Nat := 65535

/-- Modelled from the spec: minimum IPv6 integer value (§6). -/
def IPV6_MIN_VALUE : Nat := 0

/-- Modelled from the spec: maximum IPv6 integer value (§6: `2^128-1`). -/
def IPV6_MAX_VALUE : Nat := 340282366920938463463374607431768211455

/-- Modelled from the spec: the IPv4 loopback constant from the missing
`iplib3.constants.address` module (§8.7: the integer `0x7F000001`
renders as `127.0.0.1`). -/
def IPV4_LOCALHOST : Nat := 2130706433

/-- Modelled from the spec: the IPv6 loopback constant (`::1`, integer 1). -/
def IPV6_LOCALHOST : Nat := 1

/-- Models `_port_validator` from `iplib3/address.py`. -/
def port_validator (port_num : PyVal) : Bool :=
  match port_num with
  | .none => true
  | .int n => decide ((PORT_NUMBER_MIN_VALUE : Int) ≤ n ∧ n ≤ (PORT_NUMBER_MAX_VALUE : Int))
  | _ => false

/-- Segment-parsing and bounds tail of `_ipv4_validator` (the code after
the optional port has been split off and checked). -/
def ipv4_validator_segments (addr : List Char) (strict : Bool) : Except Err Bool :=
  match attempt (mapExcept (pyIntExc 10) (pySplitChar '.' addr)) with
  | .error e => .error e
  | .ok Option.none => .ok false
  | .ok (some segments) =>
    if segments.length ≠ IPV4_MAX_SEGMENT_COUNT then .ok false
    else if strict then
      if ¬ (∀ seg ∈ segments, (IPV4_MIN_SEGMENT_VALUE : Int) ≤ seg ∧ seg ≤ (IPV4_MAX_SEGMENT_VALUE : Int))
        then .ok false
      else .ok true
    else .ok true

/-- Models `_ipv4_validator` from `iplib3/address.py`.  The `Except` layer
records the exception flow of the source: each `int(...)` call sits inside
a `try/except ValueError`, modelled by `attempt` around `pyIntExc`. -/
def ipv4_validator (address : PyVal) (strict : Bool) : Except Err Bool :=
  match address with
  | .str s =>
    if '.' ∉ s then .ok false
    else
      let parts := pySplitChar ':' s
      let addr := parts.headD []
      let port := parts.tail
      if port = [] then ipv4_validator_segments addr strict
      else
        match attempt (pyIntExc 10 (port.headD [])) with
        | .error e => .error e
        | .ok Option.none => .ok false
        | .ok (some port_num) =>
          if strict then
            if ¬ ((PORT_NUMBER_MIN_VALUE : Int) ≤ port_num ∧ port_num ≤ (PORT_NUMBER_MAX_VALUE : Int))
              then .ok false
            else ipv4_validator_segments addr strict
          else ipv4_validator_segments addr strict
  | .int n => .ok (decide ((IPV4_MIN_VALUE : Int) ≤ n ∧ n ≤ (IPV4_MAX_VALUE : Int)))
  | _ => .ok false

/-- The `"::"` expansion shared (verbatim in the source) by
`_ipv6_validator` and `IPv6._ipv6_to_num`: split on `"::"`, pad with
`"0000"` hextets to reach 8 pieces; `none` signals more than one `"::"`
(which the two callers turn into `False` and a `ValueError` raise
respectively). -/
def ipv6_expand (address : List Char) : Option (List (List Char)) :=
  let halves := pySplit2 ':' ':' address
  if halves.length = 2 then
    let left := pySplitChar ':' (halves.headD [])
    let right := pySplitChar ':' (halves.getD 1 [])
    let total_length := left.length + right.length
    some (
      (if halves.headD [] ≠ [] then left else [pstr "0000"])
      ++ List.replicate (IPV6_MAX_SEGMENT_COUNT - total_length) (pstr "0000")
      ++ (if halves.getD 1 [] ≠ [] then right else [pstr "0000"]))
  else if halves.length = 1 then
    some (pySplitChar ':' (halves.headD []))
  else none

/-- Models the per-hextet conversion `int(segment, 16) if segment else 0`
(with `IPV6_SEGMENT_BIT_COUNT = 16` as the base, as in the source). -/
def hexOrZero (seg : List Char) : Except Err Int :=
  if seg = [] then .ok 0 else pyIntExc IPV6_SEGMENT_BIT_COUNT seg

/-- Expansion, parsing and bounds tail of `_ipv6_validator` (the code
after the optional bracketed port has been handled). -/
def ipv6_validator_segments (addr : List Char) (strict : Bool) : Except Err Bool :=
  match ipv6_expand addr with
  | Option.none => .ok false
  | some segments =>
    match attempt (mapExcept hexOrZero segments) with
    | .error e => .error e
    | .ok Option.none => .ok false
    | .ok (some processed) =>
      if processed.length ≠ IPV6_MAX_SEGMENT_COUNT then .ok false
      else if strict then
        if ¬ (∀ seg ∈ processed, (IPV6_MIN_SEGMENT_VALUE : Int) ≤ seg ∧ seg ≤ (IPV6_MAX_SEGMENT_VALUE : Int))
          then .ok false
        else .ok true
      else .ok true

/-- Models `_ipv6_validator` from `iplib3/address.py`. -/
def ipv6_validator (address : PyVal) (strict : Bool) : Except Err Bool :=
  match address with
  | .str s =>
    let parts := pySplit2 ']' ':' s
    let addr0 := parts.headD []
    let port := parts.tail
    if port = [] then ipv6_validator_segments addr0 strict
    else
      match attempt (pyIntExc 10 (port.headD [])) with
      | .error e => .error e
      | .ok Option.none => .ok false
      | .ok (some port_num) =>
        if strict then
          if ¬ ((PORT_NUMBER_MIN_VALUE : Int) ≤ port_num ∧ port_num ≤ (PORT_NUMBER_MAX_VALUE : Int))
            then .ok false
          else ipv6_validator_segments addr0.tail strict
        else ipv6_validator_segments addr0.tail strict
  | .int n => .ok (decide ((IPV6_MIN_VALUE : Int) ≤ n ∧ n ≤ (IPV6_MAX_VALUE : Int)))
  | _ => .ok false

/-- Models `_ip_validator`: IPv4 first, then IPv6. -/
def ip_validator (address : PyVal) (strict : Bool) : Except Err Bool :=
  match ipv4_validator address strict with
  | .error e => .error e
  | .ok true => .ok true
  | .ok false => ipv6_validator address strict

/-- Models the repeated `num, segment = divmod(num, base)` loop collecting
`count` base-`base` digits of `num`, least significant first. -/
def segLoop (base : Nat) : Nat → Nat → List Nat
  | 0, _ => []
  | k + 1, n => (n % base) :: segLoop base k (n / base)

/-- Models `PureAddress._num_to_ipv4`. -/
def num_to_ipv4 (num : Nat) : List Char :=
  let segments := segLoop (IPV4_MAX_SEGMENT_VALUE + 1) IPV4_MAX_SEGMENT_COUNT num
  pyJoin [ '.' ] (segments.reverse.map (digitsBE 10))

/-- State of the zero-run scan in `PureAddress._num_to_ipv6`; the fields
mirror the Python locals `longest`, `longest_idx`, `current` and
`current_idx`. -/
structure ScanSt where
  longest : Nat
  longest_idx : Nat
  current : Nat
  current_idx : Nat
deriving DecidableEq

/-- Loop body of the zero-run scan over the enumerated segment list. -/
def scanStep (st : ScanSt) (p : Nat × List Char) : ScanSt :=
  let st1 : ScanSt :=
    if p.2 = [ '0' ] then
      ⟨st.longest, st.longest_idx, st.current + 1,
        if st.current = 0 then p.1 else st.current_idx⟩
    else ⟨st.longest, st.longest_idx, 0, st.current_idx⟩
  if st1.current > st1.longest then ⟨st1.current, st1.current_idx, st1.current, st1.current_idx⟩
  else st1

/-- Models `PureAddress._num_to_ipv6` (the `shorten` and `remove_zeroes`
flags as in the source; segments are collected least significant first and
reversed for display by the final join). -/
def num_to_ipv6 (num : Nat) (shorten remove_zeroes : Bool) : List Char :=
  let segments :=
    (segLoop (IPV6_MAX_SEGMENT_VALUE + 1) IPV6_MAX_SEGMENT_COUNT num).map (digitsBE 16)
  let segments :=
    if remove_zeroes ∧ pstr "0" ∈ segments then
      let st := segments.enum.foldl scanStep ⟨0, 0, 0, 0⟩
      (if IPV6_MIN_SEGMENT_COUNT < st.longest_idx ∧ st.longest_idx < IPV6_MAX_SEGMENT_COUNT - 1
        then segments.take st.longest_idx else [[]])
      ++ [[]]
      ++ (if IPV6_MIN_SEGMENT_COUNT < st.longest_idx + st.longest ∧
            st.longest_idx + st.longest < IPV6_MAX_SEGMENT_COUNT
          then segments.drop (st.longest_idx + st.longest) else [[]])
    else segments
  let segments :=
    if ¬ shorten then
      segments.map (fun seg =>
        if seg ≠ [] then pyZfill seg (IPV6_SEGMENT_BIT_COUNT / IPV6_NUMBER_BIT_COUNT) else [])
    else segments
  pyJoin [ ':' ] segments.reverse

/-- Weighted accumulation `total += num * 2**(idx*bits)` over a
least-significant-first segment list, starting at index `i`. -/
def weightedFrom (bits : Nat) : Nat → List Int → Int
  | _, [] => 0
  | i, n :: rest => n * 2 ^ (i * bits) + weightedFrom bits (i + 1) rest

/-- Models `IPv4._ipv4_to_num` applied to the stored address text: split on
`.`, parse decimal integers (raising `ValueError` on bad tokens), then
accumulate big-endian with byte weights.  The source checks neither the
segment count nor the segment bounds here. -/
def ipv4_to_num (address : List Char) : Except Err Int :=
  match mapExcept (pyIntExc 10) (pySplitChar '.' address) with
  | .error e => .error e
  | .ok segs => .ok (weightedFrom 8 0 segs.reverse)

/-- Python `max` over a list of ints (the source only applies it to
nonempty lists; the `[]` case is an unreachable default). -/
def maxList : List Int → Int
  | [] => 0
  | x :: xs => xs.foldl max x

/-- Python `min` over a list of ints (nonempty in all uses). -/
def minList : List Int → Int
  | [] => 0
  | x :: xs => xs.foldl min x

/-- Models `IPv6._ipv6_to_num` applied to the stored address text: the
`"::"` expansion, hextet parsing over the reversed segment list (a caught
`ValueError` is re-raised as `ValueError`), then the count check (upper
bound only), the max/min bounds checks, and the weighted accumulation. -/
def ipv6_to_num (address : List Char) : Except Err Int :=
  match ipv6_expand address with
  | Option.none => .error .valueError
  | some segments =>
    match mapExcept hexOrZero segments.reverse with
    | .error _ => .error .valueError
    | .ok processed =>
      if IPV6_MAX_SEGMENT_COUNT < processed.length then .error .valueError
      else if (IPV6_MAX_SEGMENT_VALUE : Int) < maxList processed then .error .valueError
      else if minList processed < (IPV6_MIN_SEGMENT_VALUE : Int) then .error .valueError
      else .ok (weightedFrom 16 0 processed)

/-- The three concrete object shapes of the class hierarchy: a generic
`IPAddress`, an `IPv4` (with its stored `_address` text) and an `IPv6`.
The `num`/`port` fields mirror the `PureAddress` slots `_num`/`_port`;
the lazily cached alternate-family views are not state that any observed
behaviour depends on (their computation is pure) and are left out. -/
inductive AddrObj where
  | generic (num : Int) (port : Option Int) : AddrObj
  | v4 (addressText : List Char) (num : Int) (port : Option Int) : AddrObj
  | v6 (addressText : List Char) (num : Int) (port : Option Int) : AddrObj
deriving DecidableEq

/-- Raw `_num` slot. -/
def AddrObj.rawNum : AddrObj → Int
  | .generic n _ => n
  | .v4 _ n _ => n
  | .v6 _ n _ => n

/-- Raw `_port` slot. -/
def AddrObj.rawPort : AddrObj → Option Int
  | .generic _ p => p
  | .v4 _ _ p => p
  | .v6 _ _ p => p

/-- Clamp-on-read behaviour of the `PureAddress.port` property, on a raw
slot value. -/
def portPropOf : Option Int → Option Int
  | Option.none => Option.none
  | some p => some (min (max (PORT_NUMBER_MIN_VALUE : Int) p) (PORT_NUMBER_MAX_VALUE : Int))

/-- Models the `PureAddress.num` property: negatives clamp to zero. -/
def AddrObj.numP (o : AddrObj) : Int := max 0 o.rawNum

/-- Models the `PureAddress.port` property. -/
def AddrObj.portP (o : AddrObj) : Option Int := portPropOf o.rawPort

/-- The port-storage step of `IPAddress.__init__`:
`port_num if _port_validator(port_num) else None`. -/
def storePort (port_num : PyVal) : Option Int :=
  if port_validator port_num then
    match port_num with
    | .int n => some n
    | _ => Option.none
  else Option.none

/-- Models `IPAddress.__init__` for an integer (or absent) address.  This
path contains no raising operation, so it is a total function. -/
def ipAddressInit (address : Option Int) (port_num : PyVal) : AddrObj :=
  .generic (address.getD 0) (storePort port_num)

/-- Models `IPv4.__init__` (with the `IPAddress.__init__` it calls): the
embedded-port split on `:`, the parse of the embedded port when and only
when the explicit `port_num` parameter is `None`, and the conversion of
the stored address text through `_ipv4_to_num`. -/
def ipv4Init (address : Option (List Char)) (port_num : PyVal) : Except Err AddrObj :=
  let address := address.getD (num_to_ipv4 IPV4_LOCALHOST)
  let parts := pySplitChar ':' address
  let addr := parts.headD []
  let port := parts.tail
  match (if port ≠ [] then
          (if port_num = PyVal.none then
            (pyIntExc 10 (port.headD [])).map (fun p => (addr, PyVal.int p))
          else .ok (addr, port_num))
        else .ok (address, port_num)) with
  | .error e => .error e
  | .ok (addrText, pn) =>
    match ipv4_to_num addrText with
    | .error e => .error e
    | .ok num => .ok (.v4 addrText num (storePort pn))

/-- Models `IPv6.__init__`: the embedded-port split on `]:`, the bracket
strip `address[1:]`, the parse of the embedded port when and only when
the explicit parameter is `None`, and `_ipv6_to_num`. -/
def ipv6Init (address : Option (List Char)) (port_num : PyVal) : Except Err AddrObj :=
  let address := address.getD (num_to_ipv6 IPV6_LOCALHOST true false)
  let parts := pySplit2 ']' ':' address
  let addr := parts.headD []
  let port := parts.tail
  match (if port ≠ [] then
          (if port_num = PyVal.none then
            (pyIntExc 10 (port.headD [])).map (fun p => (addr.tail, PyVal.int p))
          else .ok (addr.tail, port_num))
        else .ok (address, port_num)) with
  | .error e => .error e
  | .ok (addrText, pn) =>
    match ipv6_to_num addrText with
    | .error e => .error e
    | .ok num => .ok (.v6 addrText num (storePort pn))

/-- Models `IPv4.__str__`: the stored text, with `:port` appended when the
port property reads as present. -/
def strV4 (text : List Char) (port : Option Int) : List Char :=
  match portPropOf port with
  | Option.none => text
  | some p => text ++ ':' :: digitsBE 10 p.toNat

/-- Models `IPv6.__str__`: the stored text, bracketed with the port when
the port property reads as present. -/
def strV6 (text : List Char) (port : Option Int) : List Char :=
  match portPropOf port with
  | Option.none => text
  | some p => '[' :: (text ++ ']' :: ':' :: digitsBE 10 p.toNat)

/-- The `__str__` of a family-committed object (the generic case never
reaches this function). -/
def strFam : AddrObj → List Char
  | .v4 t _ p => strV4 t p
  | .v6 t _ p => strV6 t p
  | .generic _ _ => []

/-- Models `IPAddress.__str__`: dispatch by magnitude of the `num`
property through `as_ipv4` / `as_ipv6` (whose lazy caching is pure and
semantically transparent), raising `ValueError` beyond the IPv6 range. -/
def strGeneric (num : Int) (port : Option Int) : Except Err (List Char) :=
  let n : Int := max 0 num
  let pv : PyVal :=
    match portPropOf port with
    | Option.none => PyVal.none
    | some q => PyVal.int q
  if (IPV4_MIN_VALUE : Int) ≤ n ∧ n ≤ (IPV4_MAX_VALUE : Int) then
    (ipv4Init (some (num_to_ipv4 n.toNat)) pv).map strFam
  else if (IPV4_MAX_VALUE : Int) < n ∧ n ≤ (IPV6_MAX_VALUE : Int) then
    (ipv6Init (some (num_to_ipv6 n.toNat true false)) pv).map strFam
  else .error .valueError

/-- Models `str(...)` on any address object. -/
def strAddr : AddrObj → Except Err (List Char)
  | .generic n p => strGeneric n p
  | .v4 t _ p => .ok (strV4 t p)
  | .v6 t _ p => .ok (strV6 t p)

/-- Right operand of `PureAddress.__eq__`: another address object or a
plain Python string. -/
inductive EqOperand where
  | obj (o : AddrObj) : EqOperand
  | pyStr (s : List Char) : EqOperand

/-- Models `PureAddress.__eq__`: first the string comparison (exceptions
from `str(...)` propagate, as in the source), then, for another address
object, the `num`/`port` property comparison. -/
def addrEq (self : AddrObj) (other : EqOperand) : Except Err Bool :=
  match strAddr self with
  | .error e => .error e
  | .ok s1 =>
    match (match other with
           | .obj o => strAddr o
           | .pyStr s => .ok s) with
    | .error e => .error e
    | .ok s2 =>
      if s1 = s2 then .ok true
      else
        match other with
        | .obj o => .ok (decide (self.numP = o.numP ∧ self.portP = o.portP))
        | .pyStr _ => .ok false

/-- Models the `PureAddress.port` setter: the new `_port` slot value on
success, or the exception the setter raises. -/
def portSet (value : PyVal) : Except Err (Option Int) :=
  match value with
  | .none => .ok Option.none
  | .int n =>
    if ¬ ((PORT_NUMBER_MIN_VALUE : Int) ≤ n ∧ n ≤ (PORT_NUMBER_MAX_VALUE : Int)) then
      .error .valueError
    else .ok (some n)
  | _ => .error .typeError

/-- The object state after `addr.port = value`: updated on success and
unchanged when the setter raises (the exception fires before the
assignment in the source). -/
def trySetPort (o : AddrObj) (value : PyVal) : AddrObj :=
  match portSet value with
  | .ok p =>
    (match o with
     | .generic n _ => .generic n p
     | .v4 t n _ => .v4 t n p
     | .v6 t n _ => .v6 t n p)
  | .error _ => o

/-- Whether the two-character pattern `a ++ b` occurs in a string;
characterises when `pySplit2` leaves its input in one piece. -/
def noPair (a b : Char) : List Char → Bool
  | c1 :: c2 :: rest =>
    if c1 = a ∧ c2 = b then false else noPair a b (c2 :: rest)
  | _ => true

/-- Pure (exception-free) counterpart of `list(map(int, tokens))` in base
`b`: `none` when some token fails to parse. -/
def parseSegs (b : Nat) : List (List Char) → Option (List Int)
  | [] => some []
  | t :: ts =>
    match pyIntB b t with
    | Option.none => Option.none
    | some v => (parseSegs b ts).map (fun vs => v :: vs)

/-- Pure counterpart of mapping `int(segment, 16) if segment else 0` over
hextet tokens. -/
def hexParseAll : List (List Char) → Option (List Int)
  | [] => some []
  | t :: ts =>
    match (if t = [] then some 0 else pyIntB IPV6_SEGMENT_BIT_COUNT t) with
    | Option.none => Option.none
    | some v => (hexParseAll ts).map (fun vs => v :: vs)

/-- A hextet value rendered as the codec renders it in expanded mode:
uppercase hex, zero-filled to 4 digits. -/
def hextetPad (v : Nat) : List Char :=
  pyZfill (digitsBE 16 v) (IPV6_SEGMENT_BIT_COUNT / IPV6_NUMBER_BIT_COUNT)

/-- A split result is never the empty list of pieces. -/
theorem pySplitChar_ne_nil (sep : Char) (s : List Char) : pySplitChar sep s ≠ [] := by
  induction s with
  | nil => simp [pySplitChar]
  | cons c rest ih =>
    simp only [pySplitChar]
    split
    · simp
    · cases h : pySplitChar sep rest with
      | nil => exact absurd h ih
      | cons x t => simp [consHead]

/-- Splitting a string free of the separator leaves it in one piece. -/
theorem splitChar_not_mem {sep : Char} :
    ∀ {s : List Char}, sep ∉ s → pySplitChar sep s = [s] := by
  intro s
  induction s with
  | nil => intro _; rfl
  | cons c rest ih =>
    intro h
    have hc : c ≠ sep := fun he => h (he ▸ List.mem_cons_self c rest)
    have hrest : sep ∉ rest := fun hm => h (List.mem_cons_of_mem c hm)
    simp only [pySplitChar, if_neg hc, ih hrest, consHead]

/-- Splitting past a separator-free prefix peels off that prefix. -/
theorem splitChar_sep_append {sep : Char} :
    ∀ {x : List Char} (rest : List Char), sep ∉ x →
      pySplitChar sep (x ++ sep :: rest) = x :: pySplitChar sep rest := by
  intro x
  induction x with
  | nil => intro rest _; simp [pySplitChar]
  | cons c x' ih =>
    intro rest h
    have hc : c ≠ sep := fun he => h (he ▸ List.mem_cons_self c x')
    have hx : sep ∉ x' := fun hm => h (List.mem_cons_of_mem c hm)
    have step : pySplitChar sep (c :: (x' ++ sep :: rest)) =
        consHead c (pySplitChar sep (x' ++ sep :: rest)) := by
      simp [pySplitChar, hc]
    rw [List.cons_append, step, ih rest hx]
    simp [consHead]

/-- Single-character split is a left inverse of join on separator-free
pieces. -/
theorem splitChar_join {sep : Char} :
    ∀ (ps : List (List Char)), ps ≠ [] → (∀ p ∈ ps, sep ∉ p) →
      pySplitChar sep (pyJoin [sep] ps) = ps
  | [], hne, _ => absurd rfl hne
  | [x], _, h => by
    simpa [pyJoin] using splitChar_not_mem (h x (List.mem_singleton.mpr rfl))
  | x :: y :: t, _, h => by
    have hj : pyJoin [sep] (x :: y :: t) = x ++ sep :: pyJoin [sep] (y :: t) := by
      simp [pyJoin]
    rw [hj, splitChar_sep_append _ (h x (List.mem_cons_self x _)),
      splitChar_join (y :: t) (by simp) (fun p hp => h p (List.mem_cons_of_mem x hp))]

/-- A two-character split leaves a string with no occurrence of the
pattern in one piece. -/
theorem split2_of_noPair {a b : Char} :
    ∀ (s : List Char), noPair a b s = true → pySplit2 a b s = [s]
  | [], _ => rfl
  | [_], _ => rfl
  | c1 :: c2 :: rest, h => by
    by_cases hab : c1 = a ∧ c2 = b
    · simp only [noPair, if_pos hab] at h
      exact absurd h (by decide)
    · simp only [noPair, if_neg hab] at h
      simp only [pySplit2, if_neg hab, split2_of_noPair (c2 :: rest) h, consHead]

/-- The first occurrence of the two-character pattern splits off the
pattern-free prefix before it. -/
theorem split2_pair_append {a b : Char} :
    ∀ {x : List Char} (rest : List Char), a ∉ x →
      pySplit2 a b (x ++ a :: b :: rest) = x :: pySplit2 a b rest := by
  intro x
  induction x with
  | nil => intro rest _; simp [pySplit2]
  | cons c x' ih =>
    intro rest h
    have hc : c ≠ a := fun he => h (he ▸ List.mem_cons_self c x')
    have hx : a ∉ x' := fun hm => h (List.mem_cons_of_mem c hm)
    cases x' with
    | nil =>
      simp [pySplit2, consHead, hc]
    | cons c2 x'' =>
      have := ih rest hx
      simp only [List.cons_append] at this ⊢
      simp only [pySplit2, if_neg (fun hcc : c = a ∧ c2 = b => hc hcc.1), this, consHead]

/-- Appending onto a pattern-free prefix preserves pattern-freeness when
the prefix avoids the first pattern character entirely. -/
theorem noPair_append {c : Char} :
    ∀ (x s : List Char), c ∉ x → noPair c c s = true → noPair c c (x ++ s) = true
  | [], _, _, hs => hs
  | [d], s, hx, hs => by
    have hd : d ≠ c := fun he => hx (he ▸ List.mem_cons_self d [])
    cases s with
    | nil => rfl
    | cons e t =>
      simp only [List.cons_append, List.nil_append, noPair,
        if_neg (fun hdc : d = c ∧ e = c => hd hdc.1)]
      exact hs
  | d :: d2 :: x', s, hx, hs => by
    have hd : d ≠ c := fun he => hx (he ▸ List.mem_cons_self d (d2 :: x'))
    have hx2 : c ∉ d2 :: x' := fun hm => hx (List.mem_cons_of_mem d hm)
    simp only [List.cons_append, noPair, if_neg (fun hdc : d = c ∧ d2 = c => hd hdc.1)]
    have := noPair_append (d2 :: x') s hx2 hs
    simpa using this

/-- Joining nonempty colon-free pieces with single colons never produces a
double colon. -/
theorem noPair_join :
    ∀ (ps : List (List Char)), (∀ p ∈ ps, p ≠ [] ∧ ':' ∉ p) →
      noPair ':' ':' (pyJoin [ ':' ] ps) = true
  | [], _ => rfl
  | [x], h => by
    have := noPair_append x [] (h x (List.mem_singleton.mpr rfl)).2 rfl
    simpa [pyJoin] using this
  | x :: y :: t, h => by
    have hx := h x (List.mem_cons_self x _)
    have hy := h y (List.mem_cons_self y t |> List.mem_cons_of_mem x)
    have hrec := noPair_join (y :: t) (fun p hp => h p (List.mem_cons_of_mem x hp))
    have hj : pyJoin [ ':' ] (x :: y :: t) = x ++ ':' :: pyJoin [ ':' ] (y :: t) := by
      simp [pyJoin]
    rw [hj]
    apply noPair_append x _ hx.2
    obtain ⟨r, hr⟩ : ∃ r, pyJoin [ ':' ] (y :: t) = y ++ r := by
      cases t with
      | nil => exact ⟨[], by simp [pyJoin]⟩
      | cons z t2 => exact ⟨':' :: pyJoin [ ':' ] (z :: t2), by simp [pyJoin]⟩
    rw [hr] at hrec ⊢
    cases y with
    | nil => exact absurd rfl hy.1
    | cons cy y' =>
      have hcy : cy ≠ ':' := fun he => hy.2 (he ▸ List.mem_cons_self cy y')
      simp only [List.cons_append] at hrec ⊢
      simpa [noPair, hcy] using hrec

/-- The `"::"` split leaves a join of nonempty colon-free pieces whole. -/
theorem split2_join (ps : List (List Char)) (h : ∀ p ∈ ps, p ≠ [] ∧ ':' ∉ p) :
    pySplit2 ':' ':' (pyJoin [ ':' ] ps) = [pyJoin [ ':' ] ps] :=
  split2_of_noPair _ (noPair_join ps h)

/-- Digit characters evaluate back to their value and are distinct from the
punctuation the library splits on. -/
theorem toDigitChar_props :
    ∀ d, d < 16 → digitVal (toDigitChar d) = some d ∧ toDigitChar d ≠ '.' ∧
      toDigitChar d ≠ ':' ∧ toDigitChar d ≠ '-' ∧ toDigitChar d ≠ '+' := by decide

/-- Every character the fuelled renderer emits is a digit character of the
base. -/
theorem digitsF_chars {b : Nat} (hb : 0 < b) :
    ∀ (f n : Nat) (c : Char), c ∈ digitsF b f n → ∃ d, d < b ∧ c = toDigitChar d := by
  intro f
  induction f with
  | zero => intro n c hc; simp [digitsF] at hc
  | succ f ih =>
    intro n c hc
    simp only [digitsF] at hc
    by_cases hn : n < b
    · rw [if_pos hn] at hc
      simp only [List.mem_singleton] at hc
      exact ⟨n, hn, hc⟩
    · rw [if_neg hn] at hc
      rcases List.mem_append.mp hc with h1 | h2
      · exact ih _ c h1
      · simp only [List.mem_singleton] at h2
        exact ⟨n % b, Nat.mod_lt _ hb, h2⟩

/-- Every character `digitsBE` emits is a digit character of the base. -/
theorem digitsBE_chars {b : Nat} (hb : 0 < b) (n : Nat) (c : Char)
    (hc : c ∈ digitsBE b n) : ∃ d, d < b ∧ c = toDigitChar d :=
  digitsF_chars hb _ _ _ hc

/-- The rendered digit string is never empty. -/
theorem digitsBE_ne_nil (b n : Nat) : digitsBE b n ≠ [] := by
  show digitsF b (n + 1) n ≠ []
  simp only [digitsF]
  split <;> simp

/-- The fuelled renderer does not depend on the fuel, given enough of it. -/
theorem digitsF_stable {b : Nat} (hb : 2 ≤ b) :
    ∀ (f : Nat) {g n : Nat}, 0 < f → 0 < g → n < b ^ f → n < b ^ g →
      digitsF b f n = digitsF b g n := by
  intro f
  induction f with
  | zero => intro g n hf _ _ _; omega
  | succ f ih =>
    intro g n _ hg hnf hng
    cases g with
    | zero => omega
    | succ g =>
      by_cases hn : n < b
      · simp [digitsF, hn]
      · have hb0 : 0 < b := by omega
        have hf1 : 0 < f := by
          by_contra hcon
          have hf0 : f = 0 := by omega
          subst hf0
          simp only [Nat.zero_add, pow_one] at hnf
          omega
        have hg1 : 0 < g := by
          by_contra hcon
          have hg0 : g = 0 := by omega
          subst hg0
          simp only [Nat.zero_add, pow_one] at hng
          omega
        have hnf' : n / b < b ^ f := by
          rw [Nat.div_lt_iff_lt_mul hb0]
          calc n < b ^ (f + 1) := hnf
          _ = b ^ f * b := by rw [pow_succ]
        have hng' : n / b < b ^ g := by
          rw [Nat.div_lt_iff_lt_mul hb0]
          calc n < b ^ (g + 1) := hng
          _ = b ^ g * b := by rw [pow_succ]
        simp only [digitsF, if_neg hn]
        rw [ih hf1 hg1 hnf' hng']

/-- Unfolding equation for `digitsBE` in terms of itself. -/
theorem digitsBE_unfold {b : Nat} (hb : 2 ≤ b) (n : Nat) :
    digitsBE b n =
      if n < b then [toDigitChar n]
      else digitsBE b (n / b) ++ [toDigitChar (n % b)] := by
  by_cases hn : n < b
  · simp [digitsBE, digitsF, hn]
  · rw [if_neg hn]
    show digitsF b (n + 1) n = _
    rw [show digitsF b (n + 1) n = digitsF b n (n / b) ++ [toDigitChar (n % b)] from by
      simp [digitsF, hn]]
    congr 1
    have h1 : n / b < b ^ n :=
      lt_of_le_of_lt (Nat.div_le_self n b) (Nat.lt_pow_self (by omega) n)
    have h2 : n / b < b ^ (n / b + 1) :=
      lt_of_lt_of_le (Nat.lt_pow_self (by omega) _)
        (Nat.pow_le_pow_right (by omega) (by omega))
    exact digitsF_stable hb n (by omega) (Nat.succ_pos _) h1 h2

/-- The digit parser distributes over append. -/
theorem goDigits_append (b : Nat) :
    ∀ (xs : List Char) (acc : Nat) (ys : List Char),
      goDigits b acc (xs ++ ys) = (goDigits b acc xs).bind (fun m => goDigits b m ys)
  | [], acc, ys => by simp [goDigits]
  | c :: cs, acc, ys => by
    cases h : digitVal c with
    | none => simp [goDigits, h]
    | some v =>
      by_cases hv : v < b
      · simp only [List.cons_append, goDigits, h, if_pos hv]
        exact goDigits_append b cs _ ys
      · simp [goDigits, h, if_neg hv]

/-- Parsing the rendered digits of `n` starting from accumulator `acc`
recovers `acc`-shifted `n`. -/
theorem goDigits_digitsBE {b : Nat} (hb : 2 ≤ b) (hb16 : b ≤ 16) :
    ∀ (n acc : Nat), goDigits b acc (digitsBE b n) =
      some (acc * b ^ (digitsBE b n).length + n) := by
  intro n
  induction n using Nat.strong_induction_on with
  | _ n ih =>
    intro acc
    rw [digitsBE_unfold hb n]
    by_cases hn : n < b
    · rw [if_pos hn]
      have hd := (toDigitChar_props n (by omega)).1
      simp [goDigits, hd, hn]
    · rw [if_neg hn]
      rw [goDigits_append]
      rw [ih (n / b) (Nat.div_lt_self (by omega) (by omega)) acc]
      have hd := (toDigitChar_props (n % b) (by
        have := Nat.mod_lt n (show 0 < b by omega); omega)).1
      have hmb : n % b < b := Nat.mod_lt n (by omega)
      simp only [Option.some_bind, goDigits, hd, if_pos hmb]
      have key : (acc * b ^ (digitsBE b (n / b)).length + n / b) * b + n % b =
          acc * (b ^ (digitsBE b (n / b)).length * b) + (b * (n / b) + n % b) := by ring
      simp only [List.length_append, List.length_singleton, pow_succ, key,
        Nat.div_add_mod]

/-- `parseNat` inverts `digitsBE`. -/
theorem parseNat_digitsBE {b : Nat} (hb : 2 ≤ b) (hb16 : b ≤ 16) (n : Nat) :
    parseNat b (digitsBE b n) = some n := by
  unfold parseNat
  rw [if_neg (digitsBE_ne_nil b n), goDigits_digitsBE hb hb16]
  simp

/-- The modelled `int(s, b)` inverts the modelled digit rendering. -/
theorem pyIntB_digitsBE {b : Nat} (hb : 2 ≤ b) (hb16 : b ≤ 16) (n : Nat) :
    pyIntB b (digitsBE b n) = some (n : Int) := by
  cases h : digitsBE b n with
  | nil => exact absurd h (digitsBE_ne_nil b n)
  | cons c rest =>
    obtain ⟨d, hd, rfl⟩ :=
      digitsBE_chars (by omega) n c (h ▸ List.mem_cons_self c rest)
    have hprops := toDigitChar_props d (by omega)
    simp only [pyIntB, if_neg hprops.2.2.2.1, if_neg hprops.2.2.2.2]
    rw [← h, parseNat_digitsBE hb hb16]
    rfl

/-- Leading zeros do not change the parsed value. -/
theorem goDigits_zeros {b : Nat} (hb : 2 ≤ b) :
    ∀ (k : Nat) (s : List Char), goDigits b 0 (List.replicate k '0' ++ s) = goDigits b 0 s
  | 0, s => by simp
  | k + 1, s => by
    have h0 : digitVal '0' = some 0 := by decide
    simp only [List.replicate_succ, List.cons_append, goDigits, h0,
      if_pos (show 0 < b by omega)]
    simpa using goDigits_zeros hb k s

/-- The modelled `int(s, b)` also inverts the zero-filled rendering. -/
theorem pyIntB_zfill {b : Nat} (hb : 2 ≤ b) (hb16 : b ≤ 16) (n w : Nat) :
    pyIntB b (pyZfill (digitsBE b n) w) = some (n : Int) := by
  unfold pyZfill
  cases hk : w - (digitsBE b n).length with
  | zero => simpa using pyIntB_digitsBE hb hb16 n
  | succ k =>
    simp only [List.replicate_succ, List.cons_append]
    have h0m : ¬ (('0' : Char) = '-') := by decide
    have h0p : ¬ (('0' : Char) = '+') := by decide
    simp only [pyIntB, if_neg h0m, if_neg h0p]
    unfold parseNat
    rw [if_neg (by simp)]
    rw [show ('0' :: (List.replicate k '0' ++ digitsBE b n)) =
      List.replicate (k + 1) '0' ++ digitsBE b n from by simp [List.replicate_succ]]
    rw [goDigits_zeros hb, goDigits_digitsBE hb hb16]
    simp

/-- A padded hextet is nonempty. -/
theorem hextetPad_ne_nil (v : Nat) : hextetPad v ≠ [] := by
  unfold hextetPad pyZfill
  simp [digitsBE_ne_nil]

/-- A padded hextet contains no colon. -/
theorem colon_not_mem_hextetPad (v : Nat) : ':' ∉ hextetPad v := by
  unfold hextetPad pyZfill
  intro hmem
  rcases List.mem_append.mp hmem with h1 | h2
  · have := List.eq_of_mem_replicate h1
    exact absurd this (by decide)
  · obtain ⟨d, hd, he⟩ := digitsBE_chars (by omega) v _ h2
    exact (toDigitChar_props d (by omega)).2.2.1 he.symm

/-- A decimal rendering contains no dot. -/
theorem dot_not_mem_digitsBE10 (n : Nat) : '.' ∉ digitsBE 10 n := by
  intro hmem
  obtain ⟨d, hd, he⟩ := digitsBE_chars (by omega) n _ hmem
  exact (toDigitChar_props d (by omega)).2.1 he.symm

/-- A decimal rendering contains no colon. -/
theorem colon_not_mem_digitsBE10 (n : Nat) : ':' ∉ digitsBE 10 n := by
  intro hmem
  obtain ⟨d, hd, he⟩ := digitsBE_chars (by omega) n _ hmem
  exact (toDigitChar_props d (by omega)).2.2.1 he.symm

/-- Extraction step for the `divmod` loop. -/
theorem segLoop_step {base : Nat} (hb : 0 < base) (k x y : Nat) (hx : x < base) :
    segLoop base (k + 1) (x + base * y) = x :: segLoop base k y := by
  simp only [segLoop]
  congr 1
  · rw [Nat.add_mul_mod_self_left, Nat.mod_eq_of_lt hx]
  · rw [Nat.add_mul_div_left _ _ hb, Nat.div_eq_of_lt hx, Nat.zero_add]

/-- `attempt` around a modelled `int(...)` call never propagates. -/
theorem attempt_pyIntExc (b : Nat) (t : List Char) :
    attempt (pyIntExc b t) = .ok (pyIntB b t) := by
  cases h : pyIntB b t <;> simp [pyIntExc, attempt, h]

/-- The raising segment parser agrees with the pure one. -/
theorem mapExcept_pyIntExc (b : Nat) :
    ∀ (ts : List (List Char)),
      mapExcept (pyIntExc b) ts =
        (match parseSegs b ts with
         | some vs => .ok vs
         | Option.none => .error .valueError)
  | [] => rfl
  | t :: ts => by
    cases h : pyIntB b t with
    | none => simp [mapExcept, parseSegs, pyIntExc, h]
    | some v =>
      simp only [mapExcept, parseSegs, pyIntExc, h]
      rw [mapExcept_pyIntExc b ts]
      cases parseSegs b ts <;> rfl

/-- The raising hextet parser agrees with the pure one. -/
theorem mapExcept_hexOrZero :
    ∀ (ts : List (List Char)),
      mapExcept hexOrZero ts =
        (match hexParseAll ts with
         | some vs => .ok vs
         | Option.none => .error .valueError)
  | [] => rfl
  | t :: ts => by
    by_cases ht : t = []
    · simp only [mapExcept, hexOrZero, hexParseAll, if_pos ht]
      rw [mapExcept_hexOrZero ts]
      cases hexParseAll ts <;> rfl
    · cases h : pyIntB IPV6_SEGMENT_BIT_COUNT t with
      | none => simp [mapExcept, hexOrZero, hexParseAll, if_neg ht, pyIntExc, h]
      | some v =>
        simp only [mapExcept, hexOrZero, hexParseAll, if_neg ht, pyIntExc, h]
        rw [mapExcept_hexOrZero ts]
        cases hexParseAll ts <;> rfl

/-- Catching around the raising segment parser always returns. -/
theorem attempt_mapExcept_pyIntExc (b : Nat) (ts : List (List Char)) :
    attempt (mapExcept (pyIntExc b) ts) = .ok (parseSegs b ts) := by
  rw [mapExcept_pyIntExc]
  cases parseSegs b ts <;> rfl

/-- Catching around the raising hextet parser always returns. -/
theorem attempt_mapExcept_hexOrZero (ts : List (List Char)) :
    attempt (mapExcept hexOrZero ts) = .ok (hexParseAll ts) := by
  rw [mapExcept_hexOrZero]
  cases hexParseAll ts <;> rfl

/-- The pure segment parser preserves length. -/
theorem parseSegs_length {b : Nat} :
    ∀ {ts : List (List Char)} {vs : List Int}, parseSegs b ts = some vs →
      vs.length = ts.length := by
  intro ts
  induction ts with
  | nil =>
    intro vs h
    simp only [parseSegs, Option.some.injEq] at h
    subst h
    rfl
  | cons t ts ih =>
    intro vs h
    simp only [parseSegs] at h
    cases hp : pyIntB b t with
    | none => rw [hp] at h; exact absurd h (by simp)
    | some v =>
      rw [hp] at h
      cases hps : parseSegs b ts with
      | none => rw [hps] at h; exact absurd h (by simp)
      | some ws =>
        rw [hps] at h
        simp only [Option.map_some', Option.some.injEq] at h
        subst h
        simp [ih hps]

/-- A two-character split result is never the empty list of pieces. -/
theorem pySplit2_ne_nil (a b : Char) : ∀ (s : List Char), pySplit2 a b s ≠ []
  | [] => by simp [pySplit2]
  | [c] => by simp [pySplit2]
  | c1 :: c2 :: rest => by
    simp only [pySplit2]
    split
    · simp
    · cases h : pySplit2 a b (c2 :: rest) with
      | nil => exact absurd h (pySplit2_ne_nil a b (c2 :: rest))
      | cons x t => simp [consHead]

/-- Claim C1: the IPv6 text-to-integer codec raises exactly on the listed
malformed shapes and the validator returns `False` on them.  The claim
fails on hextet counts below 8: `"1:2:3"` makes `_ipv6_to_num` return
`4295098371` without raising (the source only rejects counts above 8,
contradicting its own docstring), while the validator does return
`False`; the other listed shapes (two `"::"`, more than 8 hextets, a
hextet above `0xFFFF`, a negative-parsing hextet) do raise, with the
validator returning `False` on each. -/
theorem claim_C1 :
    ipv6_to_num (pstr "1:2:3") = .ok 4295098371 ∧
    ipv6_validator (.str (pstr "1:2:3")) true = .ok false ∧
    ipv6_to_num (pstr "1::2::3") = .error .valueError ∧
    ipv6_validator (.str (pstr "1::2::3")) true = .ok false ∧
    ipv6_to_num (pstr "1:2:3:4:5:6:7:8:9") = .error .valueError ∧
    ipv6_validator (.str (pstr "1:2:3:4:5:6:7:8:9")) true = .ok false ∧
    ipv6_to_num (pstr "1:2:3:4:5:6:7:FFFFF") = .error .valueError ∧
    ipv6_validator (.str (pstr "1:2:3:4:5:6:7:FFFFF")) true = .ok false ∧
    ipv6_to_num (pstr "1:2:3:4:5:6:7:-1") = .error .valueError ∧
    ipv6_validator (.str (pstr "1:2:3:4:5:6:7:-1")) true = .ok false :=
  ⟨rfl, rfl, rfl, rfl, rfl, rfl, rfl, rfl, rfl, rfl⟩

/-- Claim C5: rendering 0 with `remove_zeroes` yields `"::"` and the
`[0x2001,0,0,0,0,0,0,1]` example collapses to `"2001::1"`; but the
general longest-run-replacement statement fails when the only zero hextet
is the display-leftmost one (scan index 7): the integer with big-endian
hextets `[0,1,1,1,1,1,1,1]` renders as `"::"`, silently dropping the
seven nonzero hextets instead of producing `"::1:1:1:1:1:1:1"`. -/
theorem claim_C5 :
    num_to_ipv6 0 true true = pstr "::" ∧
    num_to_ipv6 (0x2001 * 2 ^ 112 + 1) true true = pstr "2001::1" ∧
    num_to_ipv6 0x0001000100010001000100010001 true true = pstr "::" ∧
    pstr "::" ≠ pstr "::1:1:1:1:1:1:1" :=
  ⟨rfl, rfl, rfl, by decide⟩

/-- Claim C9: the explicit port setter raises a range failure on 65536 and
-1, a type failure on non-integers, accepts `None` (after which the port
reads back as `None`, not zero), and leaves the stored port unchanged
whenever it raises. -/
theorem claim_C9 :
    portSet (PyVal.int 65536) = .error .valueError ∧
    portSet (PyVal.int (-1)) = .error .valueError ∧
    (∀ s : List Char, portSet (.str s) = .error .typeError) ∧
    portSet PyVal.other = .error .typeError ∧
    portSet PyVal.none = .ok Option.none ∧
    (∀ o : AddrObj, (trySetPort o PyVal.none).rawPort = Option.none ∧
      (trySetPort o PyVal.none).portP = Option.none) ∧
    (∀ o : AddrObj, trySetPort o (PyVal.int 65536) = o ∧
      trySetPort o (PyVal.int (-1)) = o) := by
  refine ⟨rfl, rfl, fun s => rfl, rfl, rfl, fun o => ?_, fun o => ?_⟩
  · cases o <;> exact ⟨rfl, rfl⟩
  · cases o <;> exact ⟨rfl, rfl⟩

/-- Claim C10: `IPAddress.__init__` silently replaces an invalid
`port_num` argument (wrong type or out of the port range) by `None`
instead of raising; the integer-address path of the constructor contains
no raising operation, which is why its model is a total function. -/
theorem claim_C10 (address : Option Int) (port_num : PyVal)
    (h : port_validator port_num = false) :
    (ipAddressInit address port_num).rawPort = Option.none ∧
    (ipAddressInit address port_num).portP = Option.none := by
  constructor <;>
    simp [ipAddressInit, storePort, AddrObj.rawPort, AddrObj.portP, portPropOf, h]

/-- Witness for C10 at the concrete invalid port 70000. -/
theorem claim_C10_witness :
    port_validator (PyVal.int 70000) = false ∧
    (ipAddressInit (some 2130706433) (PyVal.int 70000)).rawPort = Option.none ∧
    (ipAddressInit (some 2130706433) (PyVal.int 70000)).portP = Option.none :=
  ⟨by decide, (claim_C10 _ _ (by decide)).1, (claim_C10 _ _ (by decide)).2⟩

/-- Counterexample to claim C2 as stated: constructing `IPv4` from
`"1.2.3.4:80"` with explicit `port_num=9090` stores port 9090 (the
explicit parameter), not the embedded 80; likewise `IPv6` from
`"[::1]:8080"` with explicit `port_num=7` stores 7, not 8080. -/
theorem claim_C2_counterexample :
    (ipv4Init (some (pstr "1.2.3.4:80")) (PyVal.int 9090)).map AddrObj.portP =
      .ok (some 9090) ∧
    (ipv6Init (some (pstr "[::1]:8080")) (PyVal.int 7)).map AddrObj.portP =
      .ok (some 7) ∧
    some (9090 : Int) ≠ some (80 : Int) ∧
    some (7 : Int) ≠ some (8080 : Int) :=
  ⟨rfl, rfl, by decide, by decide⟩

/-- When the address text embeds a port and the explicit parameter is not
`None`, `IPv4.__init__` keeps the explicit parameter and never parses the
embedded text port. -/
theorem ipv4Init_embedded (a rest : List Char) (pn : PyVal) (hpn : pn ≠ PyVal.none)
    (ha : ':' ∉ a) :
    ipv4Init (some (a ++ ':' :: rest)) pn =
      (match ipv4_to_num a with
       | .error e => .error e
       | .ok num => .ok (.v4 a num (storePort pn))) := by
  unfold ipv4Init
  simp only [Option.getD_some, splitChar_sep_append rest ha, List.headD_cons,
    List.tail_cons]
  rw [if_pos (pySplitChar_ne_nil ':' rest), if_neg hpn]

/-- When the address text embeds a port and the explicit parameter is
`None`, `IPv4.__init__` parses and uses the embedded port. -/
theorem ipv4Init_embedded_none (a rest : List Char) (n : Int) (ha : ':' ∉ a)
    (hp : pyIntB 10 ((pySplitChar ':' rest).headD []) = some n) :
    ipv4Init (some (a ++ ':' :: rest)) PyVal.none =
      (match ipv4_to_num a with
       | .error e => .error e
       | .ok num => .ok (.v4 a num (storePort (PyVal.int n)))) := by
  unfold ipv4Init
  simp only [Option.getD_some, splitChar_sep_append rest ha, List.headD_cons,
    List.tail_cons]
  rw [if_pos (pySplitChar_ne_nil ':' rest)]
  simp only [if_true, pyIntExc, hp]
  rfl

/-- When the address text embeds a bracketed port and the explicit
parameter is not `None`, `IPv6.__init__` keeps the explicit parameter. -/
theorem ipv6Init_embedded (a rest : List Char) (pn : PyVal) (hpn : pn ≠ PyVal.none)
    (ha : ']' ∉ a) :
    ipv6Init (some (('[' :: a) ++ ']' :: ':' :: rest)) pn =
      (match ipv6_to_num a with
       | .error e => .error e
       | .ok num => .ok (.v6 a num (storePort pn))) := by
  unfold ipv6Init
  have hbr : ']' ∉ '[' :: a := by
    intro hmem
    rcases List.mem_cons.mp hmem with h1 | h2
    · exact absurd h1.symm (by decide)
    · exact ha h2
  simp only [Option.getD_some, split2_pair_append rest hbr, List.headD_cons,
    List.tail_cons]
  rw [if_pos (pySplit2_ne_nil ']' ':' rest), if_neg hpn]

/-- When the address text embeds a bracketed port and the explicit
parameter is `None`, `IPv6.__init__` parses and uses the embedded port. -/
theorem ipv6Init_embedded_none (a rest : List Char) (n : Int) (ha : ']' ∉ a)
    (hp : pyIntB 10 ((pySplit2 ']' ':' rest).headD []) = some n) :
    ipv6Init (some (('[' :: a) ++ ']' :: ':' :: rest)) PyVal.none =
      (match ipv6_to_num a with
       | .error e => .error e
       | .ok num => .ok (.v6 a num (storePort (PyVal.int n)))) := by
  unfold ipv6Init
  have hbr : ']' ∉ '[' :: a := by
    intro hmem
    rcases List.mem_cons.mp hmem with h1 | h2
    · exact absurd h1.symm (by decide)
    · exact ha h2
  simp only [Option.getD_some, split2_pair_append rest hbr, List.headD_cons,
    List.tail_cons]
  rw [if_pos (pySplit2_ne_nil ']' ':' rest)]
  simp only [if_true, pyIntExc, hp]
  rfl

/-- Claim C2, amended: when a family-specific address is built from text
with an embedded port AND a non-`None` explicit `port_num`, the explicit
parameter wins (stored through the silent constructor validation); the
embedded text port is parsed and used only when the explicit parameter is
`None`. -/
theorem claim_C2 :
    (∀ (a rest : List Char) (n m : Int), ':' ∉ a → ipv4_to_num a = .ok m →
      ipv4Init (some (a ++ ':' :: rest)) (PyVal.int n) =
        .ok (.v4 a m (storePort (PyVal.int n)))) ∧
    (∀ (a rest : List Char) (n m : Int), ':' ∉ a → ipv4_to_num a = .ok m →
      pyIntB 10 ((pySplitChar ':' rest).headD []) = some n →
      ipv4Init (some (a ++ ':' :: rest)) PyVal.none =
        .ok (.v4 a m (storePort (PyVal.int n)))) ∧
    (∀ (a rest : List Char) (n m : Int), ']' ∉ a → ipv6_to_num a = .ok m →
      ipv6Init (some (('[' :: a) ++ ']' :: ':' :: rest)) (PyVal.int n) =
        .ok (.v6 a m (storePort (PyVal.int n)))) ∧
    (∀ (a rest : List Char) (n m : Int), ']' ∉ a → ipv6_to_num a = .ok m →
      pyIntB 10 ((pySplit2 ']' ':' rest).headD []) = some n →
      ipv6Init (some (('[' :: a) ++ ']' :: ':' :: rest)) PyVal.none =
        .ok (.v6 a m (storePort (PyVal.int n)))) := by
  refine ⟨?_, ?_, ?_, ?_⟩
  · intro a rest n m ha hm
    rw [ipv4Init_embedded a rest _ (fun hc => PyVal.noConfusion hc) ha, hm]
  · intro a rest n m ha hm hp
    rw [ipv4Init_embedded_none a rest n ha hp, hm]
  · intro a rest n m ha hm
    rw [ipv6Init_embedded a rest _ (fun hc => PyVal.noConfusion hc) ha, hm]
  · intro a rest n m ha hm hp
    rw [ipv6Init_embedded_none a rest n ha hp, hm]

/-- Witness for C2 at `"1.2.3.4:80"` with explicit port 9090. -/
theorem claim_C2_witness :
    ':' ∉ pstr "1.2.3.4" ∧
    ipv4_to_num (pstr "1.2.3.4") = .ok 16909060 ∧
    ipv4Init (some (pstr "1.2.3.4" ++ ':' :: pstr "80")) (PyVal.int 9090) =
      .ok (.v4 (pstr "1.2.3.4") 16909060 (storePort (PyVal.int 9090))) :=
  ⟨by decide, rfl, claim_C2.1 (pstr "1.2.3.4") (pstr "80") 9090 16909060 (by decide) rfl⟩

/-- Claim C8: an `IPAddress` built from `0x7F000001` equals the plain
string `"127.0.0.1"`; in general equal string renderings make addresses
equal (including against a plain string, string equality taking
precedence), and two address objects with equal `num` and `port`
properties are also equal. -/
theorem claim_C8 :
    addrEq (ipAddressInit (some 2130706433) PyVal.none) (.pyStr (pstr "127.0.0.1")) =
      .ok true ∧
    (∀ (x : AddrObj) (s : List Char), strAddr x = .ok s →
      addrEq x (.pyStr s) = .ok true) ∧
    (∀ (x y : AddrObj) (s : List Char), strAddr x = .ok s → strAddr y = .ok s →
      addrEq x (.obj y) = .ok true) ∧
    (∀ (x y : AddrObj) (s1 s2 : List Char), strAddr x = .ok s1 → strAddr y = .ok s2 →
      x.numP = y.numP → x.portP = y.portP → addrEq x (.obj y) = .ok true) := by
  refine ⟨rfl, ?_, ?_, ?_⟩
  · intro x s h
    simp [addrEq, h]
  · intro x y s hx hy
    simp [addrEq, hx, hy]
  · intro x y s1 s2 hx hy hnum hport
    simp only [addrEq, hx, hy]
    by_cases hs : s1 = s2
    · rw [if_pos hs]
    · rw [if_neg hs]
      simp [hnum, hport]

/-- Witness for C8 on a concrete `IPv4` object and its rendering. -/
theorem claim_C8_witness :
    strAddr (.v4 (pstr "10.0.0.1") 167772161 Option.none) = .ok (pstr "10.0.0.1") ∧
    addrEq (.v4 (pstr "10.0.0.1") 167772161 Option.none) (.pyStr (pstr "10.0.0.1")) =
      .ok true :=
  ⟨rfl, claim_C8.2.1 _ _ rfl⟩

/-- The segment tail of the IPv4 validator always returns a boolean. -/
theorem ipv4_validator_segments_total (addr : List Char) (strict : Bool) :
    ∃ b, ipv4_validator_segments addr strict = .ok b := by
  unfold ipv4_validator_segments
  rw [attempt_mapExcept_pyIntExc]
  cases parseSegs 10 (pySplitChar '.' addr) with
  | none => exact ⟨false, rfl⟩
  | some segments =>
    dsimp only
    split
    · exact ⟨false, rfl⟩
    · split
      · split
        · exact ⟨false, rfl⟩
        · exact ⟨true, rfl⟩
      · exact ⟨true, rfl⟩

/-- The segment tail of the IPv6 validator always returns a boolean. -/
theorem ipv6_validator_segments_total (addr : List Char) (strict : Bool) :
    ∃ b, ipv6_validator_segments addr strict = .ok b := by
  unfold ipv6_validator_segments
  cases ipv6_expand addr with
  | none => exact ⟨false, rfl⟩
  | some segments =>
    dsimp only
    rw [attempt_mapExcept_hexOrZero]
    cases hexParseAll segments with
    | none => exact ⟨false, rfl⟩
    | some processed =>
      dsimp only
      split
      · exact ⟨false, rfl⟩
      · split
        · split
          · exact ⟨false, rfl⟩
          · exact ⟨true, rfl⟩
        · exact ⟨true, rfl⟩

/-- The IPv4 validator always returns a boolean. -/
theorem ipv4_validator_total (v : PyVal) (strict : Bool) :
    ∃ b, ipv4_validator v strict = .ok b := by
  cases v with
  | str s =>
    unfold ipv4_validator
    dsimp only
    by_cases hdot : '.' ∉ s
    · exact ⟨false, by rw [if_pos hdot]⟩
    · rw [if_neg hdot]
      by_cases hport : (pySplitChar ':' s).tail = []
      · rw [if_pos hport]
        exact ipv4_validator_segments_total _ strict
      · rw [if_neg hport, attempt_pyIntExc]
        cases pyIntB 10 ((pySplitChar ':' s).tail.headD []) with
        | none => exact ⟨false, rfl⟩
        | some pn =>
          dsimp only
          cases strict with
          | false =>
            rw [if_neg (by decide : ¬ (false = true))]
            exact ipv4_validator_segments_total _ false
          | true =>
            rw [if_pos rfl]
            by_cases hr :
                ¬ ((PORT_NUMBER_MIN_VALUE : Int) ≤ pn ∧ pn ≤ (PORT_NUMBER_MAX_VALUE : Int))
            · exact ⟨false, by rw [if_pos hr]⟩
            · rw [if_neg hr]
              exact ipv4_validator_segments_total _ true
  | int n => exact ⟨_, rfl⟩
  | none => exact ⟨false, rfl⟩
  | other => exact ⟨false, rfl⟩

/-- The IPv6 validator always returns a boolean. -/
theorem ipv6_validator_total (v : PyVal) (strict : Bool) :
    ∃ b, ipv6_validator v strict = .ok b := by
  cases v with
  | str s =>
    unfold ipv6_validator
    dsimp only
    by_cases hport : (pySplit2 ']' ':' s).tail = []
    · rw [if_pos hport]
      exact ipv6_validator_segments_total _ strict
    · rw [if_neg hport, attempt_pyIntExc]
      cases pyIntB 10 ((pySplit2 ']' ':' s).tail.headD []) with
      | none => exact ⟨false, rfl⟩
      | some pn =>
        dsimp only
        cases strict with
        | false =>
          rw [if_neg (by decide : ¬ (false = true))]
          exact ipv6_validator_segments_total _ false
        | true =>
          rw [if_pos rfl]
          by_cases hr :
              ¬ ((PORT_NUMBER_MIN_VALUE : Int) ≤ pn ∧ pn ≤ (PORT_NUMBER_MAX_VALUE : Int))
          · exact ⟨false, by rw [if_pos hr]⟩
          · rw [if_neg hr]
            exact ipv6_validator_segments_total _ true
  | int n => exact ⟨_, rfl⟩
  | none => exact ⟨false, rfl⟩
  | other => exact ⟨false, rfl⟩

/-- Claim C6: every validator is total: on any input value of any type and
either mode it returns a boolean through the exception monad rather than
propagating an exception; a wrongly typed input yields `False`. -/
theorem claim_C6 (v : PyVal) (strict : Bool) :
    (∃ b, ipv4_validator v strict = .ok b) ∧
    (∃ b, ipv6_validator v strict = .ok b) ∧
    (∃ b, ip_validator v strict = .ok b) ∧
    (port_validator v = true ∨ port_validator v = false) ∧
    (v = PyVal.other →
      ipv4_validator v strict = .ok false ∧ ipv6_validator v strict = .ok false ∧
      ip_validator v strict = .ok false ∧ port_validator v = false) := by
  refine ⟨ipv4_validator_total v strict, ipv6_validator_total v strict, ?_, ?_, ?_⟩
  · obtain ⟨b4, h4⟩ := ipv4_validator_total v strict
    unfold ip_validator
    rw [h4]
    cases b4 with
    | true => exact ⟨true, rfl⟩
    | false => exact ipv6_validator_total v strict
  · cases port_validator v with
    | true => exact Or.inl rfl
    | false => exact Or.inr rfl
  · intro hv
    subst hv
    exact ⟨rfl, rfl, rfl, rfl⟩

/-- Witness for C6 at the wrongly typed input. -/
theorem claim_C6_witness :
    ipv4_validator PyVal.other true = .ok false ∧
    ipv6_validator PyVal.other true = .ok false ∧
    ip_validator PyVal.other true = .ok false ∧
    port_validator PyVal.other = false :=
  (claim_C6 PyVal.other true).2.2.2.2 rfl

/-- Claim C3: IPv4 round-trip: a dotted-decimal string built from four
canonically rendered segments in `[0,255]` converts to the big-endian
32-bit integer and renders back to the identical string. -/
theorem claim_C3 (a b c d : Nat) (ha : a ≤ 255) (hb : b ≤ 255) (hc : c ≤ 255)
    (hd : d ≤ 255) :
    ipv4_to_num (pyJoin [ '.' ] [digitsBE 10 a, digitsBE 10 b, digitsBE 10 c, digitsBE 10 d]) =
      .ok ((a * 2 ^ 24 + b * 2 ^ 16 + c * 2 ^ 8 + d : Nat) : Int) ∧
    num_to_ipv4 (a * 2 ^ 24 + b * 2 ^ 16 + c * 2 ^ 8 + d) =
      pyJoin [ '.' ] [digitsBE 10 a, digitsBE 10 b, digitsBE 10 c, digitsBE 10 d] := by
  have hparse : ∀ n : Nat, pyIntB 10 (digitsBE 10 n) = some (n : Int) :=
    fun n => pyIntB_digitsBE (by norm_num) (by norm_num) n
  have hsplit : pySplitChar '.'
      (pyJoin [ '.' ] [digitsBE 10 a, digitsBE 10 b, digitsBE 10 c, digitsBE 10 d]) =
      [digitsBE 10 a, digitsBE 10 b, digitsBE 10 c, digitsBE 10 d] := by
    apply splitChar_join _ (by simp)
    intro p hp
    rcases List.mem_cons.mp hp with rfl | hp
    · exact dot_not_mem_digitsBE10 a
    rcases List.mem_cons.mp hp with rfl | hp
    · exact dot_not_mem_digitsBE10 b
    rcases List.mem_cons.mp hp with rfl | hp
    · exact dot_not_mem_digitsBE10 c
    rcases List.mem_cons.mp hp with rfl | hp
    · exact dot_not_mem_digitsBE10 d
    · exact absurd hp (by simp)
  constructor
  · unfold ipv4_to_num
    rw [hsplit]
    simp only [mapExcept, pyIntExc, hparse, List.reverse_cons, List.reverse_nil,
      List.nil_append, List.cons_append, Except.map, weightedFrom]
    congr 1
    push_cast
    ring
  · unfold num_to_ipv4
    have e1 : a * 2 ^ 24 + b * 2 ^ 16 + c * 2 ^ 8 + d =
        d + 256 * (c + 256 * (b + 256 * a)) := by ring
    have hbase : IPV4_MAX_SEGMENT_VALUE + 1 = 256 := rfl
    have hcount : IPV4_MAX_SEGMENT_COUNT = 4 := rfl
    rw [hbase, hcount, e1]
    have s1 : segLoop 256 4 (d + 256 * (c + 256 * (b + 256 * a))) =
        d :: segLoop 256 3 (c + 256 * (b + 256 * a)) :=
      segLoop_step (by norm_num) 3 d _ (by omega)
    have s2 : segLoop 256 3 (c + 256 * (b + 256 * a)) =
        c :: segLoop 256 2 (b + 256 * a) :=
      segLoop_step (by norm_num) 2 c _ (by omega)
    have s3 : segLoop 256 2 (b + 256 * a) = b :: segLoop 256 1 a :=
      segLoop_step (by norm_num) 1 b _ (by omega)
    have s4 : segLoop 256 1 a = [a] := by
      simp [segLoop, Nat.mod_eq_of_lt (show a < 256 by omega),
        Nat.div_eq_of_lt (show a < 256 by omega)]
    rw [s1, s2, s3, s4]
    rfl

/-- Witness for C3 at `127.0.0.1`. -/
theorem claim_C3_witness :
    ipv4_to_num (pyJoin [ '.' ]
        [digitsBE 10 127, digitsBE 10 0, digitsBE 10 0, digitsBE 10 1]) =
      .ok ((127 * 2 ^ 24 + 0 * 2 ^ 16 + 0 * 2 ^ 8 + 1 : Nat) : Int) ∧
    num_to_ipv4 (127 * 2 ^ 24 + 0 * 2 ^ 16 + 0 * 2 ^ 8 + 1) =
      pyJoin [ '.' ] [digitsBE 10 127, digitsBE 10 0, digitsBE 10 0, digitsBE 10 1] :=
  claim_C3 127 0 0 1 (by decide) (by decide) (by decide) (by decide)

/-- Expansion is the identity split when the string holds no `"::"`. -/
theorem ipv6_expand_single {s : List Char} (h : pySplit2 ':' ':' s = [s]) :
    ipv6_expand s = some (pySplitChar ':' s) := by
  unfold ipv6_expand
  rw [h]
  simp

/-- Hextet conversion inverts the padded rendering. -/
theorem hexOrZero_hextetPad (v : Nat) : hexOrZero (hextetPad v) = .ok (v : Int) := by
  unfold hexOrZero
  rw [if_neg (hextetPad_ne_nil v)]
  unfold pyIntExc
  rw [show hextetPad v = pyZfill (digitsBE 16 v) 4 from rfl,
    show IPV6_SEGMENT_BIT_COUNT = 16 from rfl,
    pyIntB_zfill (by norm_num) (by norm_num)]

/-- Hextet conversion over a list of padded renderings. -/
theorem mapExcept_hexOrZero_pads :
    ∀ (vs : List Nat), mapExcept hexOrZero (vs.map hextetPad) =
      .ok (vs.map fun v => (v : Int))
  | [] => rfl
  | v :: vs => by
    simp only [List.map_cons, mapExcept, hexOrZero_hextetPad,
      mapExcept_hexOrZero_pads vs]
    rfl

/-- Claim C4: IPv6 round-trip on fully explicit, canonically padded
8-hextet strings: parsing yields the big-endian 128-bit integer and
rendering that integer back with `shorten = false` (and no zero removal)
reproduces the identical string, each hextet zero-padded to 4 uppercase
hex digits. -/
theorem claim_C4 (a b c d e f g h : Nat)
    (ha : a ≤ 65535) (hb : b ≤ 65535) (hc : c ≤ 65535) (hd : d ≤ 65535)
    (he : e ≤ 65535) (hf : f ≤ 65535) (hg : g ≤ 65535) (hh : h ≤ 65535) :
    ipv6_to_num (pyJoin [ ':' ]
        [hextetPad a, hextetPad b, hextetPad c, hextetPad d,
         hextetPad e, hextetPad f, hextetPad g, hextetPad h]) =
      .ok ((a * 2 ^ 112 + b * 2 ^ 96 + c * 2 ^ 80 + d * 2 ^ 64 +
            e * 2 ^ 48 + f * 2 ^ 32 + g * 2 ^ 16 + h : Nat) : Int) ∧
    num_to_ipv6 (a * 2 ^ 112 + b * 2 ^ 96 + c * 2 ^ 80 + d * 2 ^ 64 +
        e * 2 ^ 48 + f * 2 ^ 32 + g * 2 ^ 16 + h) false false =
      pyJoin [ ':' ]
        [hextetPad a, hextetPad b, hextetPad c, hextetPad d,
         hextetPad e, hextetPad f, hextetPad g, hextetPad h] := by
  have hpieces : ∀ p ∈ [hextetPad a, hextetPad b, hextetPad c, hextetPad d,
      hextetPad e, hextetPad f, hextetPad g, hextetPad h], p ≠ [] ∧ ':' ∉ p := by
    intro p hp
    rw [show [hextetPad a, hextetPad b, hextetPad c, hextetPad d, hextetPad e,
      hextetPad f, hextetPad g, hextetPad h] =
      List.map hextetPad [a, b, c, d, e, f, g, h] from rfl] at hp
    obtain ⟨v, _, rfl⟩ := List.mem_map.mp hp
    exact ⟨hextetPad_ne_nil v, colon_not_mem_hextetPad v⟩
  have hsplit2 := split2_join _ hpieces
  have hsplit1 := splitChar_join
    [hextetPad a, hextetPad b, hextetPad c, hextetPad d,
     hextetPad e, hextetPad f, hextetPad g, hextetPad h] (by simp)
    (fun p hp => (hpieces p hp).2)
  constructor
  · unfold ipv6_to_num
    rw [ipv6_expand_single hsplit2, hsplit1]
    dsimp only
    rw [show ([hextetPad a, hextetPad b, hextetPad c, hextetPad d, hextetPad e,
        hextetPad f, hextetPad g, hextetPad h].reverse) =
        List.map hextetPad [h, g, f, e, d, c, b, a] from rfl,
      mapExcept_hexOrZero_pads]
    dsimp only [List.map]
    rw [if_neg (by norm_num [IPV6_MAX_SEGMENT_COUNT])]
    rw [if_neg (by
      simp only [maxList, List.foldl, IPV6_MAX_SEGMENT_VALUE]
      push_cast
      omega)]
    rw [if_neg (by
      simp only [minList, List.foldl, IPV6_MIN_SEGMENT_VALUE]
      push_cast
      omega)]
    simp only [weightedFrom]
    congr 1
    push_cast
    ring
  · unfold num_to_ipv6
    have e1 : a * 2 ^ 112 + b * 2 ^ 96 + c * 2 ^ 80 + d * 2 ^ 64 +
        e * 2 ^ 48 + f * 2 ^ 32 + g * 2 ^ 16 + h =
        h + 65536 * (g + 65536 * (f + 65536 * (e + 65536 *
          (d + 65536 * (c + 65536 * (b + 65536 * a)))))) := by ring
    have hbase : IPV6_MAX_SEGMENT_VALUE + 1 = 65536 := rfl
    have hcount : IPV6_MAX_SEGMENT_COUNT = 8 := rfl
    rw [hbase, hcount, e1]
    have s1 := segLoop_step (show 0 < 65536 by norm_num) 7 h
      (g + 65536 * (f + 65536 * (e + 65536 * (d + 65536 * (c + 65536 * (b + 65536 * a))))))
      (by omega)
    have s2 := segLoop_step (show 0 < 65536 by norm_num) 6 g
      (f + 65536 * (e + 65536 * (d + 65536 * (c + 65536 * (b + 65536 * a)))))
      (by omega)
    have s3 := segLoop_step (show 0 < 65536 by norm_num) 5 f
      (e + 65536 * (d + 65536 * (c + 65536 * (b + 65536 * a)))) (by omega)
    have s4 := segLoop_step (show 0 < 65536 by norm_num) 4 e
      (d + 65536 * (c + 65536 * (b + 65536 * a))) (by omega)
    have s5 := segLoop_step (show 0 < 65536 by norm_num) 3 d
      (c + 65536 * (b + 65536 * a)) (by omega)
    have s6 := segLoop_step (show 0 < 65536 by norm_num) 2 c
      (b + 65536 * a) (by omega)
    have s7 := segLoop_step (show 0 < 65536 by norm_num) 1 b a (by omega)
    have s8 : segLoop 65536 1 a = [a] := by
      simp [segLoop, Nat.mod_eq_of_lt (show a < 65536 by omega),
        Nat.div_eq_of_lt (show a < 65536 by omega)]
    rw [s1, s2, s3, s4, s5, s6, s7, s8]
    dsimp only
    rw [if_neg (show ¬ ((false = true) ∧
      pstr "0" ∈ List.map (digitsBE 16) [h, g, f, e, d, c, b, a]) from by simp)]
    rw [if_pos (show ¬ (false = true) from by simp)]
    simp only [List.map, ne_eq, digitsBE_ne_nil, not_false_eq_true, if_true,
      ite_true]
    rfl

/-- Witness for C4 at the hextets `[1,2,3,4,5,6,7,8]`. -/
theorem claim_C4_witness :
    ipv6_to_num (pyJoin [ ':' ]
        [hextetPad 1, hextetPad 2, hextetPad 3, hextetPad 4,
         hextetPad 5, hextetPad 6, hextetPad 7, hextetPad 8]) =
      .ok ((1 * 2 ^ 112 + 2 * 2 ^ 96 + 3 * 2 ^ 80 + 4 * 2 ^ 64 +
            5 * 2 ^ 48 + 6 * 2 ^ 32 + 7 * 2 ^ 16 + 8 : Nat) : Int) ∧
    num_to_ipv6 (1 * 2 ^ 112 + 2 * 2 ^ 96 + 3 * 2 ^ 80 + 4 * 2 ^ 64 +
        5 * 2 ^ 48 + 6 * 2 ^ 32 + 7 * 2 ^ 16 + 8) false false =
      pyJoin [ ':' ]
        [hextetPad 1, hextetPad 2, hextetPad 3, hextetPad 4,
         hextetPad 5, hextetPad 6, hextetPad 7, hextetPad 8] :=
  claim_C4 1 2 3 4 5 6 7 8 (by decide) (by decide) (by decide) (by decide)
    (by decide) (by decide) (by decide) (by decide)

/-- Characterisation of the segment tail of the IPv4 validator: it accepts
exactly the strings whose dot-split parses to 4 integers, with the
`[0,255]` bounds enforced only under strict mode. -/
theorem ipv4_validator_segments_spec (addr : List Char) (strict : Bool) :
    ipv4_validator_segments addr strict = .ok true ↔
      ∃ vs, parseSegs 10 (pySplitChar '.' addr) = some vs ∧ vs.length = 4 ∧
        (strict = true → ∀ v ∈ vs, 0 ≤ v ∧ v ≤ 255) := by
  unfold ipv4_validator_segments
  rw [attempt_mapExcept_pyIntExc]
  cases hp : parseSegs 10 (pySplitChar '.' addr) with
  | none => simp
  | some vs =>
    dsimp only
    constructor
    · intro hv
      refine ⟨vs, rfl, ?_, ?_⟩
      · by_contra hlen
        rw [if_pos (by simpa [IPV4_MAX_SEGMENT_COUNT] using hlen)] at hv
        exact absurd hv (by simp)
      · intro hstrict v hvmem
        subst hstrict
        by_cases hb : ∀ seg ∈ vs,
            (IPV4_MIN_SEGMENT_VALUE : Int) ≤ seg ∧ seg ≤ (IPV4_MAX_SEGMENT_VALUE : Int)
        · simpa [IPV4_MIN_SEGMENT_VALUE, IPV4_MAX_SEGMENT_VALUE] using hb v hvmem
        · by_cases hlen : vs.length ≠ IPV4_MAX_SEGMENT_COUNT
          · rw [if_pos hlen] at hv
            exact absurd hv (by simp)
          · rw [if_neg hlen, if_pos rfl, if_pos hb] at hv
            exact absurd hv (by simp)
    · rintro ⟨vs', hvs', hlen, hbound⟩
      have hv : vs' = vs := by
        injection hvs' with h2
        exact h2.symm
      subst hv
      rw [if_neg (by simp [IPV4_MAX_SEGMENT_COUNT, hlen])]
      cases strict with
      | false => rw [if_neg (by decide)]
      | true =>
        have hall : ∀ seg ∈ vs', (IPV4_MIN_SEGMENT_VALUE : Int) ≤ seg ∧
            seg ≤ (IPV4_MAX_SEGMENT_VALUE : Int) := by
          intro v hvmem
          simpa [IPV4_MIN_SEGMENT_VALUE, IPV4_MAX_SEGMENT_VALUE] using
            hbound rfl v hvmem
        rw [if_pos rfl, if_neg (not_not_intro hall)]

/-- Claim C7: `"256.1.1.1"` fails strict validation and passes lenient
validation; in general, on port-free (colon-free) strings the lenient
validator accepts exactly the strings splitting into 4 parsed integers,
and the strict validator additionally requires every segment in
`[0,255]`. -/
theorem claim_C7 :
    ipv4_validator (.str (pstr "256.1.1.1")) true = .ok false ∧
    ipv4_validator (.str (pstr "256.1.1.1")) false = .ok true ∧
    (∀ s : List Char, ':' ∉ s →
      ((ipv4_validator (.str s) false = .ok true ↔
         ∃ vs, parseSegs 10 (pySplitChar '.' s) = some vs ∧ vs.length = 4) ∧
       (ipv4_validator (.str s) true = .ok true ↔
         ∃ vs, parseSegs 10 (pySplitChar '.' s) = some vs ∧ vs.length = 4 ∧
           ∀ v ∈ vs, 0 ≤ v ∧ v ≤ 255))) := by
  refine ⟨rfl, rfl, ?_⟩
  intro s hs
  by_cases hdot : '.' ∈ s
  · have hval : ∀ strict, ipv4_validator (.str s) strict =
        ipv4_validator_segments s strict := by
      intro strict
      unfold ipv4_validator
      dsimp only
      rw [if_neg (not_not_intro hdot), splitChar_not_mem hs]
      simp only [List.headD_cons, List.tail_cons, if_true]
    constructor
    · rw [hval false, ipv4_validator_segments_spec]
      constructor
      · rintro ⟨vs, h1, h2, _⟩
        exact ⟨vs, h1, h2⟩
      · rintro ⟨vs, h1, h2⟩
        exact ⟨vs, h1, h2, by simp⟩
    · rw [hval true, ipv4_validator_segments_spec]
      constructor
      · rintro ⟨vs, h1, h2, h3⟩
        exact ⟨vs, h1, h2, h3 rfl⟩
      · rintro ⟨vs, h1, h2, h3⟩
        exact ⟨vs, h1, h2, fun _ => h3⟩
  · have hval : ∀ strict, ipv4_validator (.str s) strict = .ok false := by
      intro strict
      unfold ipv4_validator
      dsimp only
      rw [if_pos hdot]
    have hone : ∀ vs : List Int, parseSegs 10 (pySplitChar '.' s) = some vs →
        vs.length = 1 := by
      intro vs hvs
      have hl := parseSegs_length hvs
      rw [splitChar_not_mem hdot] at hl
      simpa using hl
    constructor
    · rw [hval false]
      constructor
      · intro hcon
        exact absurd hcon (by simp)
      · rintro ⟨vs, h1, h2⟩
        have := hone vs h1
        omega
    · rw [hval true]
      constructor
      · intro hcon
        exact absurd hcon (by simp)
      · rintro ⟨vs, h1, h2, _⟩
        have := hone vs h1
        omega

/-- Witness for C7's general part at the concrete string `256.1.1.1`. -/
theorem claim_C7_witness :
    (ipv4_validator (.str (pstr "256.1.1.1")) false = .ok true ↔
      ∃ vs, parseSegs 10 (pySplitChar '.' (pstr "256.1.1.1")) = some vs ∧
        vs.length = 4) ∧
    (ipv4_validator (.str (pstr "256.1.1.1")) true = .ok true ↔
      ∃ vs, parseSegs 10 (pySplitChar '.' (pstr "256.1.1.1")) = some vs ∧
        vs.length = 4 ∧ ∀ v ∈ vs, 0 ≤ v ∧ v ≤ 255) :=
  claim_C7.2.2 (pstr "256.1.1.1") (by decide)
